import Mathlib

/-!
Shallow embedding of `libcaf_core/src/stream_manager.cpp`: the flow-controlled
stream manager of an actor framework.  Pure data is translated to Lean
structures, the mutable state of one `stream_manager` instance becomes an
explicit `StreamManager` record threaded through the operations, and the
observable side effects (promise deliveries, enqueued handshakes, finalize
calls, scheduled inbound-path cleanups, scatterer calls) are recorded in
explicit logs inside the state.  The `size_t` counter `pending_handshakes_`
is modelled as a natural number with explicit wrap-around modulo `2 ^ 64`.

Collaborators that are declared but not implemented in the repository's
sources (the outbound scatterer `stream_scatterer` and the `outbound_path`
fields it stores) are modelled from the spec, as documented on the
corresponding definitions.
-/

set_option maxHeartbeats 1000000
set_option maxRecDepth 2000

/-- Modulus of the `size_t` counter `pending_handshakes_`: increments and
decrements wrap modulo `2 ^ 64`. -/
def SIZE_T_MOD : Nat := 2 ^ 64

/-- Model of `caf::error`: either the default-constructed "no error" value
(`Option.none`) or an error carrying a reason, abstracted to a string. -/
abbrev ErrorC := Option String

/-- Model of `caf::stream_slots`: a pair of slot identifiers addressing a
directed stream path. -/
structure StreamSlots where
  sender : Nat
  receiver : Nat
deriving DecidableEq, Repr

/-- Model of `stream_slots::invert`: swaps sender and receiver. -/
def StreamSlots.invert (s : StreamSlots) : StreamSlots :=
  ⟨s.receiver, s.sender⟩

/-- Model of `caf::message`, restricted to the shapes this translation unit
builds: the empty message `none` and `make_message(reason)` wrapping an
error. -/
inductive Message where
  | nullMsg : Message
  | errorWrap : ErrorC → Message
deriving DecidableEq, Repr

/-- Model of a `caf::response_promise` by the data it is built from in
`stream_manager::send_handshake`: the manager's own control identity
(`self->ctrl()`), the optional client awaiting a reply, the forwarding
stack and the message id. -/
structure Promise where
  selfCtrl : Nat
  client : Option Nat
  fwdStack : List Nat
  mid : Nat
deriving DecidableEq, Repr

/-- Fields of `upstream_msg::ack_open` read by the manager: the rebind
target, the initial demand, and the desired batch size. -/
structure AckOpen where
  rebind_to : Nat
  initial_demand : Nat
  desired_batch_size : Nat
deriving DecidableEq, Repr

/-- Fields of `upstream_msg::ack_batch` read by the manager: the new
capacity, the desired batch size, and the acknowledged batch id. -/
structure AckBatch where
  new_capacity : Nat
  desired_batch_size : Nat
  acknowledged_id : Nat
deriving DecidableEq, Repr

/-- Record of one `open_stream_msg` handed to `dest->enqueue` by
`send_handshake`: the mailbox element data (client, message id, forwarding
stack) plus the `open_stream_msg` payload fields (slot, handshake message,
sender identity, destination, priority). -/
structure HandshakeEnqueue where
  dest : Nat
  client : Option Nat
  mid : Nat
  fwdStack : List Nat
  slot : Nat
  payload : Message
  senderCtrl : Nat
  prio : Nat
deriving DecidableEq, Repr

/-- Lookup in an association map keyed by slots (first matching entry, as in
`std::map::find` with unique keys). -/
def mapLookup {α : Type} : List (Nat × α) → Nat → Option α
  | [], _ => Option.none
  | (k', v) :: rest, k => if k = k' then Option.some v else mapLookup rest k

/-- Ordered-map insert that keeps an existing entry for the key untouched,
as `std::map::emplace` does: the new pair is inserted only when the key is
absent. -/
def mapEmplace {α : Type} : List (Nat × α) → Nat → α → List (Nat × α)
  | [], k, v => [(k, v)]
  | (k', v') :: rest, k, v =>
    if k < k' then (k, v) :: (k', v') :: rest
    else if k = k' then (k', v') :: rest
    else (k', v') :: mapEmplace rest k v

/-- Erase the entry for a key from an association map (`std::map::erase`);
absent keys leave the map unchanged. -/
def mapErase {α : Type} : List (Nat × α) → Nat → List (Nat × α)
  | [], _ => []
  | (k', v') :: rest, k => if k = k' then rest else (k', v') :: mapErase rest k

/-- Update the entry for a key in place, as mutation through the pointer
returned by a map lookup does; absent keys leave the map unchanged. -/
def mapModify {α : Type} (f : α → α) : List (Nat × α) → Nat → List (Nat × α)
  | [], _ => []
  | (k', v) :: rest, k =>
    if k = k' then (k', f v) :: rest else (k', v) :: mapModify f rest k

/-- Modelled from the spec: `caf::outbound_path` (reached only through the
scatterer, not part of the sources) carries the mutable fields
`open_credit` (available demand, non-negative), `desired_batch_size` and
`next_ack_id`, plus the slot pair and rebind target it was created from.
The bookkeeping field `sent` counts the items this path has emitted, so
that credit consumption by emitted batches is observable.  Fields the
manager never sets start at zero. -/
structure OutboundPath where
  slots : StreamSlots
  target : Nat
  open_credit : Nat
  desired_batch_size : Nat
  next_ack_id : Nat
  sent : Nat
deriving DecidableEq, Repr

/-- Fresh outbound path as `stream_scatterer::add_path` creates it, before
the ack-open handler seeds its fields. -/
def OutboundPath.fresh (sl : StreamSlots) (target : Nat) : OutboundPath :=
  ⟨sl, target, 0, 0, 0, 0⟩

/-- Modelled from the spec: the outbound scatterer collaborator
(`caf::stream_scatterer`, declared but not implemented in the sources).
It owns the outbound paths keyed by this manager's local slot — per the
spec scenario, the slot the original handshake was sent on, which is the
receiver field of the inverted slot pair passed to `add_path` — plus a
count of buffered items awaiting emission.  Calls to `close`/`abort`, remote
notifications, path removals and `emit_batches` invocations are logged so
that the manager's use of the scatterer contract is observable. -/
structure Scatterer where
  paths : List (Nat × OutboundPath)
  buffered : Nat
  closeCalls : Nat
  abortCalls : List ErrorC
  notices : List (Nat × ErrorC)
  removalLog : List (Nat × ErrorC × Bool)
  emitCalls : Nat
deriving DecidableEq, Repr

/-- Modelled from the spec: `addPath(slots, rebindTarget) -> path-or-null`
creates a fresh path keyed by the receiver slot of the given pair and
fails (returns null) when the path cannot be added, e.g. on a duplicate
slot. -/
def Scatterer.addPath (s : Scatterer) (sl : StreamSlots) (target : Nat) :
    Option Scatterer :=
  match mapLookup s.paths sl.receiver with
  | Option.some _ => Option.none
  | Option.none =>
    Option.some { s with paths := s.paths ++ [(sl.receiver, OutboundPath.fresh sl target)] }

/-- Modelled from the spec: `path(slot) -> path-or-null` looks up the
outbound path stored for a slot. -/
def Scatterer.path (s : Scatterer) (slot : Nat) : Option OutboundPath :=
  mapLookup s.paths slot

/-- Modelled from the spec: `removePath(slot, reason, silent) -> bool`
removes the path stored for the slot and reports whether a live path was
actually eliminated.  The spec describes the removal triggered by a
solicited `drop` (which passes `true` for the Boolean flag) as silent
toward the remote peer, so a `true` flag suppresses the remote
notification; a non-silent removal emits a notice carrying the reason.
Every effective removal is logged with its slot, reason and flag. -/
def Scatterer.removePath (s : Scatterer) (slot : Nat) (reason : ErrorC)
    (silent : Bool) : Scatterer × Bool :=
  match mapLookup s.paths slot with
  | Option.none => (s, false)
  | Option.some _ =>
    ({ s with paths := mapErase s.paths slot,
              removalLog := s.removalLog ++ [(slot, reason, silent)],
              notices := if silent then s.notices else s.notices ++ [(slot, reason)] },
     true)

/-- Modelled from the spec: `close()` stops advertising capacity; only the
call itself is observable to the manager, so it is logged. -/
def Scatterer.close (s : Scatterer) : Scatterer :=
  { s with closeCalls := s.closeCalls + 1 }

/-- Modelled from the spec: `abort(reason)` aborts the outbound side with
the reason; the call and its reason are logged. -/
def Scatterer.abort (s : Scatterer) (reason : ErrorC) : Scatterer :=
  { s with abortCalls := s.abortCalls ++ [reason] }

/-- Emission pass over the paths in order: each path emits as many buffered
items as its open credit allows, consuming credit and the shared pool of
buffered items.  Returns the updated paths. -/
def emitPaths : Nat → List (Nat × OutboundPath) → List (Nat × OutboundPath)
  | _, [] => []
  | pool, (k, p) :: rest =>
    let e := min p.open_credit pool
    (k, { p with open_credit := p.open_credit - e, sent := p.sent + e })
      :: emitPaths (pool - e) rest

/-- Number of buffered items left after an emission pass over the paths. -/
def emitPool : Nat → List (Nat × OutboundPath) → Nat
  | pool, [] => pool
  | pool, (_, p) :: rest => emitPool (pool - min p.open_credit pool) rest

/-- Modelled from the spec: `emitBatches()` asks the outbound side to emit
any batches it can given current credit.  Each invocation is counted so
that `push()` being triggered is observable. -/
def Scatterer.emitBatches (s : Scatterer) : Scatterer :=
  { s with paths := emitPaths s.buffered s.paths,
           buffered := emitPool s.buffered s.paths,
           emitCalls := s.emitCalls + 1 }

/-- Mutable state of one `caf::stream_manager` instance, together with the
logs of its observable effects: `deliveries` records every message handed
to a response promise, `finalizeCalls` the reasons `finalize` was invoked
with, `enqueued` the open-stream handshakes enqueued at destinations, and
`cleanupScheduled` the reasons passed to
`self_->erase_inbound_paths_later` (`Option.none` for the graceful call
without a reason). -/
structure StreamManager where
  selfCtrl : Nat
  pendingHandshakes : Nat
  priority : Nat
  continuous : Bool
  inboundPaths : List Nat
  promises : List Promise
  inFlightPromises : List (Nat × Promise)
  out : Scatterer
  deliveries : List (Promise × Message)
  finalizeCalls : List ErrorC
  enqueued : List HandshakeEnqueue
  cleanupScheduled : List ErrorC
deriving DecidableEq, Repr

/-- Freshly constructed manager: `stream_manager::stream_manager` sets
`pending_handshakes_` to zero and `continuous_` to false; all containers
start empty. -/
def initManager : StreamManager :=
  { selfCtrl := 0
    pendingHandshakes := 0
    priority := 0
    continuous := false
    inboundPaths := []
    promises := []
    inFlightPromises := []
    out := { paths := [], buffered := 0, closeCalls := 0, abortCalls := [],
             notices := [], removalLog := [], emitCalls := 0 }
    deliveries := []
    finalizeCalls := []
    enqueued := []
    cleanupScheduled := [] }

/-- Model of `stream_manager::generate_messages`: the base implementation
produces nothing and returns false. -/
def StreamManager.generate_messages (_ : StreamManager) : Bool := false

/-- Model of `stream_manager::congested`: always false in the base class. -/
def StreamManager.congested (_ : StreamManager) : Bool := false

/-- Model of `stream_manager::make_handshake`: the base implementation logs
an error and returns the empty message. -/
def StreamManager.make_handshake (_ : StreamManager) (_ : Nat) : Message :=
  Message.nullMsg

/-- Model of `stream_manager::make_final_result`: the base implementation
returns the empty message `none`. -/
def StreamManager.make_final_result (_ : StreamManager) : Message :=
  Message.nullMsg

/-- Model of `stream_manager::push`: a do-while loop that emits batches and
repeats while `generate_messages()` reports progress; the base class
`generate_messages` returns false, so exactly one emission pass runs. -/
def StreamManager.push (m : StreamManager) : StreamManager :=
  { m with out := m.out.emitBatches }

/-- Model of `stream_manager::deliver_promises`: delivers the message to
every ledger promise, then clears the ledger. -/
def StreamManager.deliver_promises (m : StreamManager) (x : Message) :
    StreamManager :=
  { m with deliveries := m.deliveries ++ m.promises.map (fun p => (p, x)),
           promises := [] }

/-- Model of `stream_manager::stop`: closes the outbound scatterer,
finalizes with a default-constructed (no) error, schedules inbound-path
cleanup without a reason, and delivers the final result to the ledger
promises only when the ledger is non-empty. -/
def StreamManager.stop (m : StreamManager) : StreamManager :=
  let m1 := { m with out := m.out.close }
  let m2 := { m1 with finalizeCalls := m1.finalizeCalls ++ [Option.none] }
  let m3 := { m2 with cleanupScheduled := m2.cleanupScheduled ++ [Option.none] }
  if m3.promises.isEmpty then m3
  else m3.deliver_promises m3.make_final_result

/-- Model of `stream_manager::abort`: when any ledger or in-flight promise
is owed, builds one message wrapping the reason, delivers it to every
ledger promise and then to every in-flight promise, and clears the
in-flight map; afterwards aborts the outbound scatterer with the reason,
finalizes with the reason, and schedules inbound-path cleanup tagged with
the reason. -/
def StreamManager.abort (m : StreamManager) (reason : ErrorC) : StreamManager :=
  let m1 :=
    if m.promises.isEmpty && m.inFlightPromises.isEmpty then m
    else
      let msg := Message.errorWrap reason
      let md := m.deliver_promises msg
      { md with
        deliveries := md.deliveries ++ m.inFlightPromises.map (fun kv => (kv.2, msg)),
        inFlightPromises := [] }
  let m2 := { m1 with out := m1.out.abort reason }
  let m3 := { m2 with finalizeCalls := m2.finalizeCalls ++ [reason] }
  { m3 with cleanupScheduled := m3.cleanupScheduled ++ [reason] }

/-- Model of `stream_manager::handle(stream_slots, upstream_msg::ack_open&)`:
adds an outbound path under the inverted slot pair and the rebind target;
returns false without mutating anything when the path cannot be added.
On success seeds the fresh path's `open_credit` and `desired_batch_size`
from the message, decrements `pending_handshakes_` (a wrapping `size_t`),
triggers `push()`, erases the in-flight promise entry for the message's
sender slot, and returns true. -/
def StreamManager.handle_ack_open (m : StreamManager) (slots : StreamSlots)
    (x : AckOpen) : StreamManager × Bool :=
  match m.out.addPath slots.invert x.rebind_to with
  | Option.none => (m, false)
  | Option.some out1 =>
    ({ StreamManager.push
        { m with
          out := { out1 with
            paths := mapModify
              (fun p => { p with open_credit := x.initial_demand,
                                 desired_batch_size := x.desired_batch_size })
              out1.paths slots.invert.receiver },
          pendingHandshakes :=
            (m.pendingHandshakes + (SIZE_T_MOD - 1)) % SIZE_T_MOD } with
       inFlightPromises := mapErase m.inFlightPromises slots.sender }, true)

/-- Model of `stream_manager::handle(stream_slots, upstream_msg::ack_batch&)`:
looks up the outbound path by the receiver slot; when present, adds the
new capacity to its open credit, updates its desired batch size, sets its
next ack id to the acknowledged id plus one, and triggers `push()`; when
absent, nothing happens. -/
def StreamManager.handle_ack_batch (m : StreamManager) (slots : StreamSlots)
    (x : AckBatch) : StreamManager :=
  match m.out.path slots.receiver with
  | Option.none => m
  | Option.some _ =>
    StreamManager.push
      { m with out := { m.out with
          paths := mapModify
            (fun p => { p with open_credit := p.open_credit + x.new_capacity,
                               desired_batch_size := x.desired_batch_size,
                               next_ack_id := x.acknowledged_id + 1 })
            m.out.paths slots.receiver } }

/-- Model of `stream_manager::handle(stream_slots, upstream_msg::drop&)`:
removes the outbound path at the receiver slot with a default-constructed
(no) error and the silent flag set. -/
def StreamManager.handle_drop (m : StreamManager) (slots : StreamSlots) :
    StreamManager :=
  { m with out := (m.out.removePath slots.receiver Option.none true).1 }

/-- Model of `stream_manager::handle(stream_slots, upstream_msg::forced_drop&)`:
removes the outbound path at the receiver slot with the carried reason,
and aborts the whole manager with that reason exactly when the removal
eliminated a live path. -/
def StreamManager.handle_forced_drop (m : StreamManager) (slots : StreamSlots)
    (reason : ErrorC) : StreamManager :=
  let r := m.out.removePath slots.receiver reason true
  if r.2 then StreamManager.abort { m with out := r.1 } reason
  else { m with out := r.1 }

/-- Model of `stream_manager::send_handshake`: increments
`pending_handshakes_` (a wrapping `size_t`), records a response promise
for the slot in the in-flight map via `emplace` (which keeps an existing
entry), and enqueues an open-stream message at the destination carrying
the slot, the handshake payload, the manager's own identity, the
destination and the stream's priority. -/
def StreamManager.send_handshake (m : StreamManager) (dest : Nat) (slot : Nat)
    (client : Option Nat) (fwdStack : List Nat) (mid : Nat) : StreamManager :=
  { m with
    pendingHandshakes := (m.pendingHandshakes + 1) % SIZE_T_MOD,
    inFlightPromises := mapEmplace m.inFlightPromises slot
      ⟨m.selfCtrl, client, fwdStack, mid⟩,
    enqueued := m.enqueued ++
      [⟨dest, client, mid, fwdStack, slot, m.make_handshake slot, m.selfCtrl,
        m.priority⟩] }

/-- Model of `stream_manager::register_input_path`: appends the path to the
registry (`emplace_back`).  Inbound paths are represented by their
identity (a numeric handle standing for the raw pointer). -/
def register_input_path (l : List Nat) (p : Nat) : List Nat :=
  l ++ [p]

/-- Index of the first occurrence of a path identity in the registry, as
`std::find` computes it. -/
def findIndexOf : List Nat → Nat → Option Nat
  | [], _ => Option.none
  | a :: rest, p => if a = p then Option.some 0 else (findIndexOf rest p).map (· + 1)

/-- Model of `stream_manager::deregister_input_path` acting on the inbound
path registry (`inbound_paths_`, a vector of non-owning path handles):
asserts the registry is non-empty; when the path is not the last entry it
is located with `std::find` (asserted to succeed) and swapped with the
last entry; then the last entry is popped.  A failed assertion is modelled
as `Option.none`. -/
def deregister_input_path (l : List Nat) (p : Nat) : Option (List Nat) :=
  match l.getLast? with
  | Option.none => Option.none
  | Option.some b =>
    if p = b then Option.some l.dropLast
    else
      match findIndexOf l p with
      | Option.none => Option.none
      | Option.some i => Option.some ((l.set i b).dropLast)

/-- Control events of the pending-handshake protocol: a handshake sent by
this manager or an incoming open-ack. -/
inductive Op where
  | send : Nat → Nat → Option Nat → List Nat → Nat → Op
  | ackOpen : StreamSlots → AckOpen → Op
deriving DecidableEq, Repr

/-- Whether an event is a `send_handshake` call. -/
def Op.isSend : Op → Bool
  | Op.send _ _ _ _ _ => true
  | Op.ackOpen _ _ => false

/-- Applies one event to the manager state. -/
def applyOp (m : StreamManager) : Op → StreamManager
  | Op.send dest slot client fwd mid => m.send_handshake dest slot client fwd mid
  | Op.ackOpen slots x => (m.handle_ack_open slots x).1

/-- Whether an event is a successful `handle_ack_open` in the given state. -/
def isSuccAck (m : StreamManager) : Op → Bool
  | Op.send _ _ _ _ _ => false
  | Op.ackOpen slots x => (m.handle_ack_open slots x).2

/-- Runs a sequence of events from a manager state. -/
def runOps (m : StreamManager) : List Op → StreamManager
  | [] => m
  | op :: t => runOps (applyOp m op) t

/-- Number of `send_handshake` calls in a sequence of events. -/
def sendCount : List Op → Nat
  | [] => 0
  | op :: t => (if op.isSend then 1 else 0) + sendCount t

/-- Number of successful `handle_ack_open` calls along a run. -/
def succAckCount (m : StreamManager) : List Op → Nat
  | [] => 0
  | op :: t => (if isSuccAck m op then 1 else 0) + succAckCount (applyOp m op) t

/-- Whether a run never processes a successful open-ack while no handshake
is outstanding: `credit` tracks the number of handshakes sent but not yet
acknowledged, and every successful ack must find `credit` positive. -/
def balancedFrom (m : StreamManager) (credit : Nat) : List Op → Bool
  | [] => true
  | op :: t =>
    if isSuccAck m op then
      decide (0 < credit) && balancedFrom (applyOp m op) (credit - 1) t
    else if op.isSend then balancedFrom (applyOp m op) (credit + 1) t
    else balancedFrom (applyOp m op) credit t

/-- Accumulates a list of ack-batch messages into the manager, all addressed
to the same slot pair. -/
def runAckBatches (m : StreamManager) (slots : StreamSlots) :
    List AckBatch → StreamManager
  | [] => m
  | b :: bs => runAckBatches (m.handle_ack_batch slots b) slots bs

/-- Sum of the `new_capacity` contributions of a list of ack-batch
messages. -/
def sumCaps : List AckBatch → Nat
  | [] => 0
  | b :: bs => b.new_capacity + sumCaps bs

/-! ### Association-map lemmas -/

@[simp]
theorem invert_receiver (s : StreamSlots) : s.invert.receiver = s.sender := rfl

@[simp]
theorem invert_sender (s : StreamSlots) : s.invert.sender = s.receiver := rfl

theorem mapLookup_eq_none_iff {α : Type} (l : List (Nat × α)) (k : Nat) :
    mapLookup l k = Option.none ↔ k ∉ l.map Prod.fst := by
  induction l with
  | nil => simp [mapLookup]
  | cons kv rest ih =>
    obtain ⟨k', v⟩ := kv
    by_cases h : k = k' <;> simp [mapLookup, h, ih]

theorem mapLookup_append_of_none {α : Type} (l : List (Nat × α)) (k : Nat)
    (v : α) (h : mapLookup l k = Option.none) :
    mapLookup (l ++ [(k, v)]) k = Option.some v := by
  induction l with
  | nil => simp [mapLookup]
  | cons kv rest ih =>
    obtain ⟨k', v'⟩ := kv
    by_cases hk : k = k' <;> simp_all [mapLookup]

theorem mapLookup_mapModify_self {α : Type} (f : α → α) (l : List (Nat × α))
    (k : Nat) :
    mapLookup (mapModify f l k) k = (mapLookup l k).map f := by
  induction l with
  | nil => simp [mapLookup, mapModify]
  | cons kv rest ih =>
    obtain ⟨k', v'⟩ := kv
    by_cases hk : k = k' <;> simp [mapLookup, mapModify, hk, ih]

theorem mapErase_of_none {α : Type} (l : List (Nat × α)) (k : Nat)
    (h : mapLookup l k = Option.none) : mapErase l k = l := by
  induction l with
  | nil => simp [mapErase]
  | cons kv rest ih =>
    obtain ⟨k', v'⟩ := kv
    by_cases hk : k = k' <;> simp_all [mapLookup, mapErase]

/-! ### Emission lemmas -/

theorem emitPaths_zero (ps : List (Nat × OutboundPath)) : emitPaths 0 ps = ps := by
  induction ps with
  | nil => rfl
  | cons kv rest ih =>
    obtain ⟨k, p⟩ := kv
    simp [emitPaths, ih]

theorem emitPaths_lookup :
    ∀ (ps : List (Nat × OutboundPath)) (pool k : Nat) (p : OutboundPath),
    mapLookup ps k = Option.some p →
    ∃ e, e ≤ p.open_credit ∧
      mapLookup (emitPaths pool ps) k
        = Option.some { p with open_credit := p.open_credit - e,
                               sent := p.sent + e } := by
  intro ps
  induction ps with
  | nil => intro pool k p h; simp [mapLookup] at h
  | cons kv rest ih =>
    intro pool k p h
    obtain ⟨k', p'⟩ := kv
    by_cases hk : k = k'
    · subst hk
      have h' : p' = p := by simpa [mapLookup] using h
      subst h'
      refine ⟨min p'.open_credit pool, Nat.min_le_left _ _, ?_⟩
      simp [emitPaths, mapLookup]
    · simp [mapLookup, hk] at h
      obtain ⟨e, he, hl⟩ := ih (pool - min p'.open_credit pool) k p h
      exact ⟨e, he, by simp [emitPaths, mapLookup, hk, hl]⟩

/-! ### Characterization of `handle_ack_open` -/

theorem addPath_some_inv (s : Scatterer) (sl : StreamSlots) (target : Nat)
    (out1 : Scatterer) (h : s.addPath sl target = Option.some out1) :
    mapLookup s.paths sl.receiver = Option.none ∧
    out1 = { s with paths := s.paths ++ [(sl.receiver, OutboundPath.fresh sl target)] } := by
  unfold Scatterer.addPath at h
  cases hl : mapLookup s.paths sl.receiver with
  | none =>
    rw [hl] at h
    exact ⟨rfl, (Option.some.inj h).symm⟩
  | some p =>
    rw [hl] at h
    cases h

theorem ack_open_none_eq (m : StreamManager) (slots : StreamSlots) (x : AckOpen)
    (ha : m.out.addPath slots.invert x.rebind_to = Option.none) :
    m.handle_ack_open slots x = (m, false) := by
  unfold StreamManager.handle_ack_open
  rw [ha]

theorem ack_open_some_eq (m : StreamManager) (slots : StreamSlots) (x : AckOpen)
    (out1 : Scatterer)
    (ha : m.out.addPath slots.invert x.rebind_to = Option.some out1) :
    m.handle_ack_open slots x =
      ({ StreamManager.push
          { m with
            out := { out1 with
              paths := mapModify
                (fun p => { p with open_credit := x.initial_demand,
                                   desired_batch_size := x.desired_batch_size })
                out1.paths slots.sender },
            pendingHandshakes :=
              (m.pendingHandshakes + (SIZE_T_MOD - 1)) % SIZE_T_MOD } with
         inFlightPromises := mapErase m.inFlightPromises slots.sender }, true) := by
  unfold StreamManager.handle_ack_open
  rw [ha]
  simp only [invert_receiver]

theorem ack_open_false_aux (m : StreamManager) (slots : StreamSlots) (x : AckOpen)
    (h : (m.handle_ack_open slots x).2 = false) :
    (m.handle_ack_open slots x).1 = m := by
  cases ha : m.out.addPath slots.invert x.rebind_to with
  | none => rw [ack_open_none_eq m slots x ha]
  | some out1 =>
    rw [ack_open_some_eq m slots x out1 ha] at h
    cases h

theorem ack_open_true_aux (m : StreamManager) (slots : StreamSlots) (x : AckOpen)
    (h : (m.handle_ack_open slots x).2 = true) :
    mapLookup m.out.paths slots.sender = Option.none
    ∧ (m.handle_ack_open slots x).1.pendingHandshakes
        = (m.pendingHandshakes + (SIZE_T_MOD - 1)) % SIZE_T_MOD
    ∧ (m.handle_ack_open slots x).1.inFlightPromises
        = mapErase m.inFlightPromises slots.sender
    ∧ (m.handle_ack_open slots x).1.out.emitCalls = m.out.emitCalls + 1
    ∧ (∃ e, e ≤ x.initial_demand ∧
        mapLookup (m.handle_ack_open slots x).1.out.paths slots.sender
          = Option.some ⟨slots.invert, x.rebind_to, x.initial_demand - e,
                         x.desired_batch_size, 0, e⟩)
    ∧ (m.out.buffered = 0 →
        mapLookup (m.handle_ack_open slots x).1.out.paths slots.sender
          = Option.some ⟨slots.invert, x.rebind_to, x.initial_demand,
                         x.desired_batch_size, 0, 0⟩) := by
  cases ha : m.out.addPath slots.invert x.rebind_to with
  | none =>
    rw [ack_open_none_eq m slots x ha] at h
    cases h
  | some out1 =>
    obtain ⟨hnone, hout⟩ := addPath_some_inv _ _ _ _ ha
    have hkey : slots.invert.receiver = slots.sender := rfl
    rw [hkey] at hnone hout
    have heq := ack_open_some_eq m slots x out1 ha
    subst hout
    rw [heq]
    have h1 : mapLookup
        (m.out.paths ++ [(slots.sender, OutboundPath.fresh slots.invert x.rebind_to)])
        slots.sender
        = Option.some (OutboundPath.fresh slots.invert x.rebind_to) :=
      mapLookup_append_of_none _ _ _ hnone
    have h2 : mapLookup (mapModify
        (fun p => { p with open_credit := x.initial_demand,
                           desired_batch_size := x.desired_batch_size })
        (m.out.paths ++ [(slots.sender, OutboundPath.fresh slots.invert x.rebind_to)])
        slots.sender) slots.sender
        = Option.some ⟨slots.invert, x.rebind_to, x.initial_demand,
                       x.desired_batch_size, 0, 0⟩ := by
      rw [mapLookup_mapModify_self, h1]
      rfl
    refine ⟨hnone, ?_, ?_, ?_, ?_, ?_⟩
    · rfl
    · rfl
    · rfl
    · obtain ⟨e, he, h3⟩ := emitPaths_lookup _ m.out.buffered slots.sender _ h2
      refine ⟨e, he, ?_⟩
      show mapLookup (emitPaths m.out.buffered _) slots.sender = _
      simpa using h3
    · intro hb
      show mapLookup (emitPaths m.out.buffered _) slots.sender = _
      rw [hb, emitPaths_zero]
      exact h2

/-! ### Characterization of `handle_ack_batch` -/

theorem ack_batch_none_eq (m : StreamManager) (slots : StreamSlots) (x : AckBatch)
    (h : mapLookup m.out.paths slots.receiver = Option.none) :
    m.handle_ack_batch slots x = m := by
  unfold StreamManager.handle_ack_batch Scatterer.path
  rw [h]

theorem ack_batch_some_eq (m : StreamManager) (slots : StreamSlots) (x : AckBatch)
    (p : OutboundPath) (h : mapLookup m.out.paths slots.receiver = Option.some p) :
    m.handle_ack_batch slots x =
      StreamManager.push
        { m with out := { m.out with
            paths := mapModify
              (fun q => { q with open_credit := q.open_credit + x.new_capacity,
                                 desired_batch_size := x.desired_batch_size,
                                 next_ack_id := x.acknowledged_id + 1 })
              m.out.paths slots.receiver } } := by
  unfold StreamManager.handle_ack_batch Scatterer.path
  rw [h]

theorem ack_batch_lookup (m : StreamManager) (slots : StreamSlots) (x : AckBatch)
    (p : OutboundPath) (h : mapLookup m.out.paths slots.receiver = Option.some p) :
    (∃ e, e ≤ p.open_credit + x.new_capacity ∧
      mapLookup (m.handle_ack_batch slots x).out.paths slots.receiver
        = Option.some ⟨p.slots, p.target, p.open_credit + x.new_capacity - e,
                       x.desired_batch_size, x.acknowledged_id + 1, p.sent + e⟩)
    ∧ (m.handle_ack_batch slots x).out.emitCalls = m.out.emitCalls + 1 := by
  rw [ack_batch_some_eq m slots x p h]
  refine ⟨?_, ?_⟩
  · have h2 : mapLookup (mapModify
        (fun q => { q with open_credit := q.open_credit + x.new_capacity,
                           desired_batch_size := x.desired_batch_size,
                           next_ack_id := x.acknowledged_id + 1 })
        m.out.paths slots.receiver) slots.receiver
        = Option.some ⟨p.slots, p.target, p.open_credit + x.new_capacity,
                       x.desired_batch_size, x.acknowledged_id + 1, p.sent⟩ := by
      rw [mapLookup_mapModify_self, h]
      rfl
    obtain ⟨e, he, h3⟩ := emitPaths_lookup _ m.out.buffered slots.receiver _ h2
    refine ⟨e, by simpa using he, ?_⟩
    show mapLookup (emitPaths m.out.buffered _) slots.receiver = _
    simpa using h3
  · rfl

theorem runAckBatches_lookup (sl : StreamSlots) (bs : List AckBatch) :
    ∀ (m : StreamManager) (p : OutboundPath),
    mapLookup m.out.paths sl.receiver = Option.some p →
    ∃ p', mapLookup (runAckBatches m sl bs).out.paths sl.receiver = Option.some p'
      ∧ p'.open_credit + p'.sent = p.open_credit + p.sent + sumCaps bs
      ∧ p'.next_ack_id = (match bs.getLast? with
          | Option.some bl => bl.acknowledged_id + 1
          | Option.none => p.next_ack_id)
      ∧ p'.desired_batch_size = (match bs.getLast? with
          | Option.some bl => bl.desired_batch_size
          | Option.none => p.desired_batch_size) := by
  induction bs with
  | nil =>
    intro m p h
    exact ⟨p, h, by simp [sumCaps], rfl, rfl⟩
  | cons b bs ih =>
    intro m p h
    obtain ⟨⟨e, he, h1⟩, _⟩ := ack_batch_lookup m sl b p h
    obtain ⟨p', hp', hsum, hack, hdes⟩ := ih (m.handle_ack_batch sl b) _ h1
    refine ⟨p', ?_, ?_, ?_, ?_⟩
    · simpa only [runAckBatches] using hp'
    · have hred : p'.open_credit + p'.sent
          = (p.open_credit + b.new_capacity - e) + (p.sent + e) + sumCaps bs := by
        simpa using hsum
      simp only [sumCaps]
      omega
    · cases bs with
      | nil => simpa using hack
      | cons c cs => simpa [List.getLast?_cons_cons] using hack
    · cases bs with
      | nil => simpa using hdes
      | cons c cs => simpa [List.getLast?_cons_cons] using hdes

/-! ### Pending-handshake counter accounting -/

theorem size_t_mod_pos : 0 < SIZE_T_MOD := by
  unfold SIZE_T_MOD
  positivity

theorem size_t_mod_val : SIZE_T_MOD = 18446744073709551616 := by
  norm_num [SIZE_T_MOD]

theorem send_handshake_pending (m : StreamManager) (dest slot : Nat)
    (client : Option Nat) (fwdStack : List Nat) (mid : Nat) :
    (m.send_handshake dest slot client fwdStack mid).pendingHandshakes
      = (m.pendingHandshakes + 1) % SIZE_T_MOD := rfl

theorem runOps_cons (m : StreamManager) (op : Op) (t : List Op) :
    runOps m (op :: t) = runOps (applyOp m op) t := rfl

theorem sendCount_cons_send (d s : Nat) (c : Option Nat) (f : List Nat) (i : Nat)
    (t : List Op) : sendCount (Op.send d s c f i :: t) = 1 + sendCount t := by
  simp [sendCount, Op.isSend]

theorem sendCount_cons_ack (slots : StreamSlots) (x : AckOpen) (t : List Op) :
    sendCount (Op.ackOpen slots x :: t) = sendCount t := by
  simp [sendCount, Op.isSend]

theorem succAckCount_cons_send (m : StreamManager) (d s : Nat) (c : Option Nat)
    (f : List Nat) (i : Nat) (t : List Op) :
    succAckCount m (Op.send d s c f i :: t)
      = succAckCount (applyOp m (Op.send d s c f i)) t := by
  simp [succAckCount, isSuccAck]

theorem succAckCount_cons_ack_true (m : StreamManager) (slots : StreamSlots)
    (x : AckOpen) (t : List Op) (hb : (m.handle_ack_open slots x).2 = true) :
    succAckCount m (Op.ackOpen slots x :: t)
      = 1 + succAckCount (applyOp m (Op.ackOpen slots x)) t := by
  simp [succAckCount, isSuccAck, hb]

theorem succAckCount_cons_ack_false (m : StreamManager) (slots : StreamSlots)
    (x : AckOpen) (t : List Op) (hb : (m.handle_ack_open slots x).2 = false) :
    succAckCount m (Op.ackOpen slots x :: t)
      = succAckCount (applyOp m (Op.ackOpen slots x)) t := by
  simp [succAckCount, isSuccAck, hb]

theorem balancedFrom_cons_send (m : StreamManager) (credit : Nat) (d s : Nat)
    (c : Option Nat) (f : List Nat) (i : Nat) (t : List Op) :
    balancedFrom m credit (Op.send d s c f i :: t)
      = balancedFrom (applyOp m (Op.send d s c f i)) (credit + 1) t := by
  simp [balancedFrom, isSuccAck, Op.isSend]

theorem balancedFrom_cons_ack_true (m : StreamManager) (credit : Nat)
    (slots : StreamSlots) (x : AckOpen) (t : List Op)
    (hb : (m.handle_ack_open slots x).2 = true) :
    balancedFrom m credit (Op.ackOpen slots x :: t)
      = (decide (0 < credit)
          && balancedFrom (applyOp m (Op.ackOpen slots x)) (credit - 1) t) := by
  simp [balancedFrom, isSuccAck, Op.isSend, hb]

theorem balancedFrom_cons_ack_false (m : StreamManager) (credit : Nat)
    (slots : StreamSlots) (x : AckOpen) (t : List Op)
    (hb : (m.handle_ack_open slots x).2 = false) :
    balancedFrom m credit (Op.ackOpen slots x :: t)
      = balancedFrom (applyOp m (Op.ackOpen slots x)) credit t := by
  simp [balancedFrom, isSuccAck, Op.isSend, hb]

theorem runOps_pending_mod (t : List Op) :
    ∀ m : StreamManager, m.pendingHandshakes < SIZE_T_MOD →
    (runOps m t).pendingHandshakes < SIZE_T_MOD ∧
    ((runOps m t).pendingHandshakes : Int) % (SIZE_T_MOD : Int)
      = ((m.pendingHandshakes : Int) + sendCount t - succAckCount m t)
          % (SIZE_T_MOD : Int) := by
  induction t with
  | nil =>
    intro m hm
    refine ⟨hm, ?_⟩
    simp [runOps, sendCount, succAckCount]
  | cons op t ih =>
    intro m hm
    cases op with
    | send dest slot client fwd mid =>
      have hstep : (applyOp m (Op.send dest slot client fwd mid)).pendingHandshakes
          = (m.pendingHandshakes + 1) % SIZE_T_MOD := rfl
      have hlt : (applyOp m (Op.send dest slot client fwd mid)).pendingHandshakes
          < SIZE_T_MOD := by
        rw [hstep]; exact Nat.mod_lt _ size_t_mod_pos
      obtain ⟨h1, h2⟩ := ih _ hlt
      rw [runOps_cons, sendCount_cons_send, succAckCount_cons_send]
      refine ⟨h1, ?_⟩
      rw [hstep] at h2
      rw [size_t_mod_val] at h2 ⊢
      omega
    | ackOpen slots x =>
      cases hb : (m.handle_ack_open slots x).2 with
      | false =>
        have hstep : applyOp m (Op.ackOpen slots x) = m :=
          ack_open_false_aux m slots x hb
        obtain ⟨h1, h2⟩ := ih (applyOp m (Op.ackOpen slots x)) (by rw [hstep]; exact hm)
        rw [runOps_cons, sendCount_cons_ack, succAckCount_cons_ack_false m slots x t hb]
        refine ⟨h1, ?_⟩
        rw [show (applyOp m (Op.ackOpen slots x)).pendingHandshakes
            = m.pendingHandshakes from by rw [hstep]] at h2
        exact h2
      | true =>
        have hstep : (applyOp m (Op.ackOpen slots x)).pendingHandshakes
            = (m.pendingHandshakes + (SIZE_T_MOD - 1)) % SIZE_T_MOD :=
          (ack_open_true_aux m slots x hb).2.1
        have hlt : (applyOp m (Op.ackOpen slots x)).pendingHandshakes
            < SIZE_T_MOD := by
          rw [hstep]; exact Nat.mod_lt _ size_t_mod_pos
        obtain ⟨h1, h2⟩ := ih _ hlt
        rw [runOps_cons, sendCount_cons_ack, succAckCount_cons_ack_true m slots x t hb]
        refine ⟨h1, ?_⟩
        rw [hstep] at h2
        rw [size_t_mod_val] at h2 ⊢
        omega

theorem runOps_pending_exact (t : List Op) :
    ∀ m : StreamManager, m.pendingHandshakes + sendCount t < SIZE_T_MOD →
    balancedFrom m m.pendingHandshakes t = true →
    (runOps m t).pendingHandshakes + succAckCount m t
      = m.pendingHandshakes + sendCount t := by
  induction t with
  | nil =>
    intro m _ _
    simp [runOps, sendCount, succAckCount]
  | cons op t ih =>
    intro m hlt hbal
    cases op with
    | send dest slot client fwd mid =>
      rw [sendCount_cons_send] at hlt
      have hph : (applyOp m (Op.send dest slot client fwd mid)).pendingHandshakes
          = m.pendingHandshakes + 1 := by
        have hstep : (applyOp m (Op.send dest slot client fwd mid)).pendingHandshakes
            = (m.pendingHandshakes + 1) % SIZE_T_MOD := rfl
        rw [hstep]
        exact Nat.mod_eq_of_lt (by omega)
      rw [balancedFrom_cons_send] at hbal
      have hbal' : balancedFrom (applyOp m (Op.send dest slot client fwd mid))
          (applyOp m (Op.send dest slot client fwd mid)).pendingHandshakes t
          = true := by
        rw [hph]; exact hbal
      have hih := ih _ (by rw [hph]; omega) hbal'
      rw [hph] at hih
      rw [runOps_cons, sendCount_cons_send, succAckCount_cons_send]
      omega
    | ackOpen slots x =>
      cases hb : (m.handle_ack_open slots x).2 with
      | false =>
        have hstep : applyOp m (Op.ackOpen slots x) = m :=
          ack_open_false_aux m slots x hb
        rw [sendCount_cons_ack] at hlt
        rw [balancedFrom_cons_ack_false m _ slots x t hb] at hbal
        have hph : (applyOp m (Op.ackOpen slots x)).pendingHandshakes
            = m.pendingHandshakes := by rw [hstep]
        have hbal' : balancedFrom (applyOp m (Op.ackOpen slots x))
            (applyOp m (Op.ackOpen slots x)).pendingHandshakes t = true := by
          rw [hph]; exact hbal
        have hih := ih _ (by rw [hph]; omega) hbal'
        rw [hph] at hih
        rw [runOps_cons, sendCount_cons_ack,
          succAckCount_cons_ack_false m slots x t hb]
        omega
      | true =>
        rw [sendCount_cons_ack] at hlt
        rw [balancedFrom_cons_ack_true m _ slots x t hb, Bool.and_eq_true,
          decide_eq_true_eq] at hbal
        obtain ⟨hpos, hbal2⟩ := hbal
        have hph : (applyOp m (Op.ackOpen slots x)).pendingHandshakes
            = m.pendingHandshakes - 1 := by
          have hstep : (applyOp m (Op.ackOpen slots x)).pendingHandshakes
              = (m.pendingHandshakes + (SIZE_T_MOD - 1)) % SIZE_T_MOD :=
            (ack_open_true_aux m slots x hb).2.1
          rw [hstep, size_t_mod_val]
          rw [size_t_mod_val] at hlt
          omega
        have hbal' : balancedFrom (applyOp m (Op.ackOpen slots x))
            (applyOp m (Op.ackOpen slots x)).pendingHandshakes t = true := by
          rw [hph]; exact hbal2
        have hih := ih _ (by rw [hph]; omega) hbal'
        rw [hph] at hih
        rw [runOps_cons, sendCount_cons_ack,
          succAckCount_cons_ack_true m slots x t hb]
        omega

/-! ### Registry deregistration -/

theorem findIndexOf_eq_none (l : List Nat) (p : Nat) (h : p ∉ l) :
    findIndexOf l p = Option.none := by
  induction l with
  | nil => rfl
  | cons a t ih =>
    simp only [List.mem_cons, not_or] at h
    have hne : ¬ a = p := fun hh => h.1 hh.symm
    simp [findIndexOf, hne, ih h.2]

theorem findIndexOf_mem (l : List Nat) (p : Nat) (h : p ∈ l) :
    ∃ i, findIndexOf l p = Option.some i := by
  induction l with
  | nil => cases h
  | cons a t ih =>
    by_cases ha : a = p
    · exact ⟨0, by simp [findIndexOf, ha]⟩
    · have hp : p ∈ t := by
        cases List.mem_cons.mp h with
        | inl hh => exact absurd hh.symm ha
        | inr hh => exact hh
      obtain ⟨i, hi⟩ := ih hp
      exact ⟨i + 1, by simp [findIndexOf, ha, hi]⟩

theorem set_last_dropLast_perm :
    ∀ (l : List Nat) (p b i : Nat),
    findIndexOf l p = Option.some i → l.getLast? = Option.some b → p ≠ b →
    ((l.set i b).dropLast).Perm (l.erase p) := by
  intro l
  induction l with
  | nil => intro p b i hi _ _; cases hi
  | cons a t ih =>
    intro p b i hi hlast hpb
    by_cases ha : a = p
    · subst ha
      have hi0 : i = 0 := by
        simp [findIndexOf] at hi
        omega
      subst hi0
      cases t with
      | nil =>
        exfalso
        rw [List.getLast?_singleton] at hlast
        exact hpb (Option.some.inj hlast)
      | cons c cs =>
        have hlast' : (c :: cs).getLast? = Option.some b := by
          rw [← List.getLast?_cons_cons]
          exact hlast
        have hcat := List.dropLast_append_getLast? b hlast'
        have h1 : (c :: cs).Perm (b :: (c :: cs).dropLast) := by
          conv_lhs => rw [← hcat]
          exact List.perm_append_singleton b _
        have hset : ((a :: c :: cs).set 0 b).dropLast = b :: (c :: cs).dropLast := rfl
        have herase : (a :: c :: cs).erase a = c :: cs := List.erase_cons_head a _
        rw [hset, herase]
        exact h1.symm
    · have hstep : (findIndexOf t p).map (· + 1) = Option.some i := by
        simpa [findIndexOf, ha] using hi
      obtain ⟨j, hj, hij⟩ := Option.map_eq_some'.mp hstep
      subst hij
      cases t with
      | nil => cases hj
      | cons c cs =>
        have hlast' : (c :: cs).getLast? = Option.some b := by
          rw [← List.getLast?_cons_cons]
          exact hlast
        have hcons : ∃ u us, (c :: cs).set j b = u :: us := by
          cases j with
          | zero => exact ⟨b, cs, rfl⟩
          | succ j => exact ⟨c, cs.set j b, rfl⟩
        obtain ⟨u, us, hu⟩ := hcons
        have herase : (a :: c :: cs).erase p = a :: (c :: cs).erase p :=
          List.erase_cons_tail (by simpa using ha)
        have hgoal : ((a :: c :: cs).set (j + 1) b).dropLast
            = a :: ((c :: cs).set j b).dropLast := by
          show (a :: (c :: cs).set j b).dropLast = _
          rw [hu]
          rfl
        rw [herase, hgoal]
        exact List.Perm.cons a (ih p b j hj hlast' hpb)

theorem deregister_input_path_mem (l : List Nat) (p : Nat) (h : p ∈ l) :
    ∃ l', deregister_input_path l p = Option.some l' ∧ l'.Perm (l.erase p) := by
  have hne : l ≠ [] := by
    intro hl
    subst hl
    cases h
  have hb : l.getLast? = Option.some (l.getLast hne) :=
    List.getLast?_eq_getLast_of_ne_nil hne
  unfold deregister_input_path
  rw [hb]
  dsimp only
  by_cases hpb : p = l.getLast hne
  · rw [if_pos hpb]
    refine ⟨l.dropLast, rfl, ?_⟩
    have hcat : l.dropLast ++ [p] = l := by
      rw [hpb]
      exact List.dropLast_append_getLast hne
    have h1 : l.Perm (p :: l.dropLast) := by
      conv_lhs => rw [← hcat]
      exact List.perm_append_singleton p _
    have h2 : l.Perm (p :: l.erase p) := List.perm_cons_erase h
    exact (h1.symm.trans h2).cons_inv
  · rw [if_neg hpb]
    obtain ⟨i, hi⟩ := findIndexOf_mem l p h
    rw [hi]
    exact ⟨_, rfl, set_last_dropLast_perm l p (l.getLast hne) i hi hb hpb⟩

theorem deregister_input_path_not_mem (l : List Nat) (p : Nat) (h : p ∉ l) :
    deregister_input_path l p = Option.none := by
  unfold deregister_input_path
  cases hl : l.getLast? with
  | none => rfl
  | some b =>
    have hne : l ≠ [] := by
      intro h0
      subst h0
      cases hl
    have hbl : b ∈ l := by
      have hx := List.getLast?_eq_getLast_of_ne_nil hne
      rw [hl] at hx
      rw [Option.some.inj hx]
      exact List.getLast_mem hne
    have hpb : ¬ p = b := fun hh => h (hh ▸ hbl)
    dsimp only
    rw [if_neg hpb, findIndexOf_eq_none l p h]

/-! ### Characterization of `stop` and `abort` -/

theorem stop_parts (m : StreamManager) :
    (m.stop).inFlightPromises = m.inFlightPromises
    ∧ (m.stop).deliveries
        = m.deliveries ++ m.promises.map (fun p => (p, Message.nullMsg))
    ∧ (m.stop).out.closeCalls = m.out.closeCalls + 1
    ∧ (m.stop).finalizeCalls = m.finalizeCalls ++ [Option.none]
    ∧ (m.stop).cleanupScheduled = m.cleanupScheduled ++ [Option.none]
    ∧ (m.stop).promises = []
    ∧ (m.stop).pendingHandshakes = m.pendingHandshakes
    ∧ (m.stop).out.paths = m.out.paths
    ∧ (m.stop).out.abortCalls = m.out.abortCalls
    ∧ (m.stop).enqueued = m.enqueued := by
  unfold StreamManager.stop StreamManager.deliver_promises Scatterer.close
    StreamManager.make_final_result
  cases hp : m.promises with
  | nil => simp [hp]
  | cons a t => simp [hp]

theorem abort_parts (m : StreamManager) (reason : ErrorC) :
    (m.abort reason).inFlightPromises = []
    ∧ (m.abort reason).promises = []
    ∧ (m.abort reason).out.abortCalls = m.out.abortCalls ++ [reason]
    ∧ (m.abort reason).finalizeCalls = m.finalizeCalls ++ [reason]
    ∧ (m.abort reason).cleanupScheduled = m.cleanupScheduled ++ [reason]
    ∧ ((m.promises ≠ [] ∨ m.inFlightPromises ≠ []) →
        (m.abort reason).deliveries
          = (m.deliveries
              ++ m.promises.map (fun p => (p, Message.errorWrap reason)))
              ++ m.inFlightPromises.map (fun kv => (kv.2, Message.errorWrap reason)))
    ∧ (m.promises = [] → m.inFlightPromises = [] →
        (m.abort reason).deliveries = m.deliveries)
    ∧ (m.abort reason).pendingHandshakes = m.pendingHandshakes
    ∧ (m.abort reason).out.paths = m.out.paths
    ∧ (m.abort reason).out.closeCalls = m.out.closeCalls
    ∧ (m.abort reason).out.removalLog = m.out.removalLog
    ∧ (m.abort reason).out.notices = m.out.notices
    ∧ (m.abort reason).enqueued = m.enqueued := by
  unfold StreamManager.abort StreamManager.deliver_promises Scatterer.abort
  cases hp : m.promises with
  | nil =>
    cases hf : m.inFlightPromises with
    | nil => simp [hp, hf]
    | cons b u => simp [hp, hf]
  | cons a t =>
    cases hf : m.inFlightPromises with
    | nil => simp [hp, hf]
    | cons b u => simp [hp, hf]

/-! ### Emplace lemmas for the in-flight promise map -/

theorem mapLookup_isSome_iff {α : Type} (l : List (Nat × α)) (k : Nat) :
    (mapLookup l k).isSome = true ↔ k ∈ l.map Prod.fst := by
  induction l with
  | nil => simp [mapLookup]
  | cons kv rest ih =>
    obtain ⟨k', v⟩ := kv
    by_cases hk : k = k' <;> simp [mapLookup, hk, ih]

theorem mapEmplace_keys_subset {α : Type} (l : List (Nat × α)) (k : Nat) (v : α) :
    ∀ x ∈ (mapEmplace l k v).map Prod.fst, x = k ∨ x ∈ l.map Prod.fst := by
  induction l with
  | nil => simp [mapEmplace]
  | cons kv rest ih =>
    obtain ⟨k', v'⟩ := kv
    intro x hx
    by_cases h1 : k < k'
    · simp only [mapEmplace, if_pos h1, List.map_cons, List.mem_cons] at hx
      rcases hx with hx | hx | hx
      · exact Or.inl hx
      · exact Or.inr (by simp [hx])
      · exact Or.inr (by simp [hx])
    · by_cases h2 : k = k'
      · simp only [mapEmplace, if_neg h1, if_pos h2] at hx
        exact Or.inr hx
      · simp only [mapEmplace, if_neg h1, if_neg h2, List.map_cons,
          List.mem_cons] at hx
        rcases hx with hx | hx
        · exact Or.inr (by simp [hx])
        · rcases ih x hx with hk | hm
          · exact Or.inl hk
          · exact Or.inr (by simp [hm])

theorem mapEmplace_pairwise {α : Type} (l : List (Nat × α)) (k : Nat) (v : α)
    (hs : List.Pairwise (fun a b => a < b) (l.map Prod.fst)) :
    List.Pairwise (fun a b => a < b) ((mapEmplace l k v).map Prod.fst) := by
  induction l with
  | nil => simp [mapEmplace]
  | cons kv rest ih =>
    obtain ⟨k', v'⟩ := kv
    simp only [List.map_cons, List.pairwise_cons] at hs
    by_cases h1 : k < k'
    · simp only [mapEmplace, if_pos h1, List.map_cons, List.pairwise_cons]
      refine ⟨?_, hs.1, hs.2⟩
      intro x hx
      rcases List.mem_cons.mp hx with hx | hx
      · omega
      · have := hs.1 x hx
        omega
    · by_cases h2 : k = k'
      · simp only [mapEmplace, if_neg h1, if_pos h2, List.map_cons,
          List.pairwise_cons]
        exact ⟨hs.1, hs.2⟩
      · simp only [mapEmplace, if_neg h1, if_neg h2, List.map_cons,
          List.pairwise_cons]
        refine ⟨?_, ih hs.2⟩
        intro x hx
        rcases mapEmplace_keys_subset rest k v x hx with hk | hm
        · omega
        · exact hs.1 x hm

theorem mapEmplace_of_mem {α : Type} (l : List (Nat × α)) (k : Nat) (v : α)
    (hs : List.Pairwise (fun a b => a < b) (l.map Prod.fst))
    (h : (mapLookup l k).isSome = true) :
    mapEmplace l k v = l := by
  induction l with
  | nil => simp [mapLookup] at h
  | cons kv rest ih =>
    obtain ⟨k', v'⟩ := kv
    simp only [List.map_cons, List.pairwise_cons] at hs
    by_cases h2 : k = k'
    · simp [mapEmplace, h2]
    · have hmem : k ∈ rest.map Prod.fst := by
        have := (mapLookup_isSome_iff _ k).mp h
        simp only [List.map_cons, List.mem_cons] at this
        rcases this with hx | hx
        · exact absurd hx h2
        · exact hx
      have h1 : ¬ k < k' := by
        have := hs.1 k hmem
        omega
      have htail : (mapLookup rest k).isSome = true :=
        (mapLookup_isSome_iff _ k).mpr hmem
      simp [mapEmplace, h1, h2, ih hs.2 htail]

theorem filter_map_pair_nil (ps : List Promise) (q : Promise) (msg : Message)
    (h : q ∉ ps) :
    (ps.map (fun p => (p, msg))).filter (fun d => decide (d.1 = q)) = [] := by
  induction ps with
  | nil => rfl
  | cons p ps ih =>
    simp only [List.mem_cons, not_or] at h
    have hne : ¬ p = q := fun hh => h.1 hh.symm
    simp [List.filter_cons, hne, ih h.2]

/-! ### Characterization of `removePath` -/

theorem removePath_none_eq (s : Scatterer) (slot : Nat) (reason : ErrorC)
    (silent : Bool) (h : mapLookup s.paths slot = Option.none) :
    s.removePath slot reason silent = (s, false) := by
  unfold Scatterer.removePath
  rw [h]

theorem removePath_some_eq (s : Scatterer) (slot : Nat) (reason : ErrorC)
    (silent : Bool) (p : OutboundPath)
    (h : mapLookup s.paths slot = Option.some p) :
    s.removePath slot reason silent =
      ({ s with paths := mapErase s.paths slot,
                removalLog := s.removalLog ++ [(slot, reason, silent)],
                notices := if silent then s.notices
                           else s.notices ++ [(slot, reason)] }, true) := by
  unfold Scatterer.removePath
  rw [h]

/-! ### Claim theorems -/

/-- C1: for every manager state, `abort(reason)` builds one shared message
wrapping the reason and delivers it exactly once to every outstanding ledger
promise and then to every in-flight promise (the delivery log grows by exactly
one entry per owed promise, all carrying the same message), clears the
in-flight map, aborts the outbound scatterer with the reason, and invokes
`finalize` exactly once with that reason; when no promise at all is owed, no
message delivery happens. -/
theorem abort_delivers_and_finalizes (m : StreamManager) (reason : ErrorC) :
    ((m.promises ≠ [] ∨ m.inFlightPromises ≠ []) →
        (m.abort reason).deliveries
          = (m.deliveries
              ++ m.promises.map (fun p => (p, Message.errorWrap reason)))
              ++ m.inFlightPromises.map (fun kv => (kv.2, Message.errorWrap reason)))
    ∧ (m.promises = [] → m.inFlightPromises = [] →
        (m.abort reason).deliveries = m.deliveries)
    ∧ (m.abort reason).inFlightPromises = []
    ∧ (m.abort reason).out.abortCalls = m.out.abortCalls ++ [reason]
    ∧ (m.abort reason).finalizeCalls = m.finalizeCalls ++ [reason] := by
  obtain ⟨hIF, _, hAb, hFin, _, hDel, hDelE, _⟩ := abort_parts m reason
  exact ⟨hDel, hDelE, hIF, hAb, hFin⟩

/-- Concrete manager owing one ledger promise and one in-flight promise, used
to exercise the abort scenario. -/
def abortDemo : StreamManager :=
  { initManager with
    promises := [⟨0, Option.some 4, [], 9⟩],
    inFlightPromises := [(7, ⟨0, Option.none, [], 0⟩)] }

theorem abort_delivers_and_finalizes_witness :
    (abortDemo.abort (Option.some "network failure")).deliveries
      = [(⟨0, Option.some 4, [], 9⟩,
            Message.errorWrap (Option.some "network failure")),
         (⟨0, Option.none, [], 0⟩,
            Message.errorWrap (Option.some "network failure"))]
    ∧ (abortDemo.abort (Option.some "network failure")).inFlightPromises = []
    ∧ (abortDemo.abort (Option.some "network failure")).out.abortCalls
        = [Option.some "network failure"]
    ∧ (abortDemo.abort (Option.some "network failure")).finalizeCalls
        = [Option.some "network failure"] := by
  obtain ⟨h1, _, h3, h4, h5⟩ :=
    abort_delivers_and_finalizes abortDemo (Option.some "network failure")
  refine ⟨?_, h3, ?_, ?_⟩
  · rw [h1 (Or.inl (by decide))]
    rfl
  · rw [h4]
    rfl
  · rw [h5]
    rfl

/-- C2 (amended): over every event trace from a fresh manager, the
pending-handshake counter equals the number of handshakes sent minus the number
of successful open-acks modulo 2^64 (it is a wrapping `size_t`); and for traces
with fewer than 2^64 sends in which every successful open-ack finds at least
one handshake outstanding, it equals the difference exactly — in particular it
never underflows. -/
theorem pending_handshakes_balance (t : List Op) :
    (((runOps initManager t).pendingHandshakes : Int) % (SIZE_T_MOD : Int)
        = ((sendCount t : Int) - (succAckCount initManager t : Int))
            % (SIZE_T_MOD : Int))
    ∧ (sendCount t < SIZE_T_MOD →
        balancedFrom initManager 0 t = true →
        (runOps initManager t).pendingHandshakes + succAckCount initManager t
          = sendCount t) := by
  have h0 : initManager.pendingHandshakes = 0 := rfl
  constructor
  · have h := (runOps_pending_mod t initManager
      (by rw [h0, size_t_mod_val]; omega)).2
    rw [h0] at h
    simpa using h
  · intro h1 h2
    have hres := runOps_pending_exact t initManager
      (by rw [h0]; omega) (by rw [h0]; exact h2)
    rw [h0] at hres
    omega

/-- C2 counterexample: a successful open-ack processed while no handshake is
outstanding decrements the `size_t` counter from 0, wrapping it to 2^64 - 1 —
so the claimed equality with #sendHandshake - #successful-acks (which would be
-1 here) fails, and a decrement happened with no handshake pending at all. -/
theorem pending_handshakes_claim_cex :
    isSuccAck initManager (Op.ackOpen ⟨7, 3⟩ ⟨0, 10, 2⟩) = true
    ∧ sendCount [Op.ackOpen ⟨7, 3⟩ ⟨0, 10, 2⟩] = 0
    ∧ succAckCount initManager [Op.ackOpen ⟨7, 3⟩ ⟨0, 10, 2⟩] = 1
    ∧ (runOps initManager [Op.ackOpen ⟨7, 3⟩ ⟨0, 10, 2⟩]).pendingHandshakes
        = SIZE_T_MOD - 1
    ∧ ¬ (((runOps initManager
            [Op.ackOpen ⟨7, 3⟩ ⟨0, 10, 2⟩]).pendingHandshakes : Int)
          = (sendCount [Op.ackOpen ⟨7, 3⟩ ⟨0, 10, 2⟩] : Int)
            - (succAckCount initManager [Op.ackOpen ⟨7, 3⟩ ⟨0, 10, 2⟩] : Int)) := by
  decide

theorem pending_handshakes_balance_witness :
    (runOps initManager [Op.send 1 7 Option.none [] 0,
        Op.ackOpen ⟨7, 3⟩ ⟨0, 10, 2⟩]).pendingHandshakes
      + succAckCount initManager [Op.send 1 7 Option.none [] 0,
          Op.ackOpen ⟨7, 3⟩ ⟨0, 10, 2⟩]
      = sendCount [Op.send 1 7 Option.none [] 0, Op.ackOpen ⟨7, 3⟩ ⟨0, 10, 2⟩] :=
  (pending_handshakes_balance _).2 (by decide) (by decide)

/-- C3: `handle_ack_open` returns false with no state mutated when the
outbound path cannot be added; on success the path materializes under the
message's sender slot (the receiver of the inverted pair), carrying the rebind
target, its `open_credit` seeded from the initial demand and its
`desired_batch_size` from the message (after the triggered push, credit plus
emitted items equals the seeded demand; with nothing buffered the seeded
values are untouched), `pending_handshakes_` is decremented by one (wrapping
`size_t`), `push()` runs one emission pass, the in-flight entry for the sender
slot is erased, and the call returns true. -/
theorem handle_ack_open_spec (m : StreamManager) (slots : StreamSlots)
    (x : AckOpen) :
    ((m.handle_ack_open slots x).2 = false → (m.handle_ack_open slots x).1 = m)
    ∧ ((m.handle_ack_open slots x).2 = true →
        (m.handle_ack_open slots x).1.pendingHandshakes
            = (m.pendingHandshakes + (SIZE_T_MOD - 1)) % SIZE_T_MOD
        ∧ (0 < m.pendingHandshakes → m.pendingHandshakes < SIZE_T_MOD →
            (m.handle_ack_open slots x).1.pendingHandshakes
              = m.pendingHandshakes - 1)
        ∧ (m.handle_ack_open slots x).1.inFlightPromises
            = mapErase m.inFlightPromises slots.sender
        ∧ (m.handle_ack_open slots x).1.out.emitCalls = m.out.emitCalls + 1
        ∧ (∃ e, e ≤ x.initial_demand ∧
            mapLookup (m.handle_ack_open slots x).1.out.paths slots.sender
              = Option.some ⟨slots.invert, x.rebind_to, x.initial_demand - e,
                             x.desired_batch_size, 0, e⟩)
        ∧ (m.out.buffered = 0 →
            mapLookup (m.handle_ack_open slots x).1.out.paths slots.sender
              = Option.some ⟨slots.invert, x.rebind_to, x.initial_demand,
                             x.desired_batch_size, 0, 0⟩)) := by
  constructor
  · exact ack_open_false_aux m slots x
  · intro hb
    obtain ⟨_, h1, h2, h3, h4, h5⟩ := ack_open_true_aux m slots x hb
    refine ⟨h1, ?_, h2, h3, h4, h5⟩
    intro hpos hlt
    rw [h1, size_t_mod_val]
    rw [size_t_mod_val] at hlt
    omega

/-- Manager that has sent one handshake on slot 7, used to exercise the
ack-open scenario. -/
def ackOpenDemo : StreamManager :=
  initManager.send_handshake 1 7 Option.none [] 0

theorem handle_ack_open_spec_witness :
    (ackOpenDemo.handle_ack_open ⟨7, 3⟩ ⟨0, 10, 2⟩).1.pendingHandshakes = 0
    ∧ (ackOpenDemo.handle_ack_open ⟨7, 3⟩ ⟨0, 10, 2⟩).1.inFlightPromises
        = mapErase ackOpenDemo.inFlightPromises 7
    ∧ mapLookup (ackOpenDemo.handle_ack_open ⟨7, 3⟩ ⟨0, 10, 2⟩).1.out.paths 7
        = Option.some ⟨⟨3, 7⟩, 0, 10, 2, 0, 0⟩ := by
  obtain ⟨_, h⟩ := handle_ack_open_spec ackOpenDemo ⟨7, 3⟩ ⟨0, 10, 2⟩
  obtain ⟨h1, h2, h3, h4, h5, h6⟩ := h (by decide)
  refine ⟨?_, h3, ?_⟩
  · rw [h2 (by decide) (by decide)]
    decide
  · exact h6 (by decide)

/-- C4: `handle_drop` removes the outbound path at the receiver slot with a
default-constructed (no) error and the silent flag, so no remote notice is
emitted; nothing else in the manager changes, and a drop for a slot with no
path changes nothing at all. -/
theorem handle_drop_spec (m : StreamManager) (slots : StreamSlots) :
    (m.handle_drop slots).out.paths = mapErase m.out.paths slots.receiver
    ∧ (m.handle_drop slots).out.notices = m.out.notices
    ∧ (m.handle_drop slots).out.removalLog
        = m.out.removalLog ++
          (if (mapLookup m.out.paths slots.receiver).isSome
           then [(slots.receiver, (Option.none : ErrorC), true)] else [])
    ∧ (m.handle_drop slots).pendingHandshakes = m.pendingHandshakes
    ∧ (m.handle_drop slots).promises = m.promises
    ∧ (m.handle_drop slots).inFlightPromises = m.inFlightPromises
    ∧ (m.handle_drop slots).deliveries = m.deliveries
    ∧ (m.handle_drop slots).finalizeCalls = m.finalizeCalls
    ∧ (m.handle_drop slots).out.abortCalls = m.out.abortCalls := by
  cases hl : mapLookup m.out.paths slots.receiver with
  | none =>
    have heq : m.handle_drop slots = m := by
      unfold StreamManager.handle_drop
      rw [removePath_none_eq m.out slots.receiver Option.none true hl]
    simp [heq, mapErase_of_none _ _ hl, hl]
  | some p =>
    have heq : m.handle_drop slots
        = { m with out := { m.out with
            paths := mapErase m.out.paths slots.receiver,
            removalLog := m.out.removalLog
              ++ [(slots.receiver, (Option.none : ErrorC), true)],
            notices := m.out.notices } } := by
      unfold StreamManager.handle_drop
      rw [removePath_some_eq m.out slots.receiver Option.none true p hl]
      rfl
    rw [heq]
    simp [hl]

/-- C5: `handle_forced_drop` removes the outbound path at the receiver slot
with the carried reason (logged with the removal) and aborts the whole manager
with that reason exactly when the removal eliminated a live path; for a slot
with no path, nothing is removed and no abort happens. -/
theorem handle_forced_drop_spec (m : StreamManager) (slots : StreamSlots)
    (reason : ErrorC) :
    ((mapLookup m.out.paths slots.receiver).isSome = true →
        (m.handle_forced_drop slots reason).out.paths
            = mapErase m.out.paths slots.receiver
        ∧ (m.handle_forced_drop slots reason).out.removalLog
            = m.out.removalLog ++ [(slots.receiver, reason, true)]
        ∧ (m.handle_forced_drop slots reason).finalizeCalls
            = m.finalizeCalls ++ [reason]
        ∧ (m.handle_forced_drop slots reason).out.abortCalls
            = m.out.abortCalls ++ [reason]
        ∧ (m.handle_forced_drop slots reason).cleanupScheduled
            = m.cleanupScheduled ++ [reason])
    ∧ (mapLookup m.out.paths slots.receiver = Option.none →
        m.handle_forced_drop slots reason = m) := by
  constructor
  · intro hs
    obtain ⟨p, hp⟩ := Option.isSome_iff_exists.mp hs
    have heq : m.handle_forced_drop slots reason
        = StreamManager.abort
            { m with out := { m.out with
                paths := mapErase m.out.paths slots.receiver,
                removalLog := m.out.removalLog ++ [(slots.receiver, reason, true)],
                notices := m.out.notices } } reason := by
      unfold StreamManager.handle_forced_drop
      rw [removePath_some_eq m.out slots.receiver reason true p hp]
      rfl
    rw [heq]
    obtain ⟨_, _, hAb, hFin, hCl, _, _, _, hPaths, _, hLog, _⟩ :=
      abort_parts { m with out := { m.out with
          paths := mapErase m.out.paths slots.receiver,
          removalLog := m.out.removalLog ++ [(slots.receiver, reason, true)],
          notices := m.out.notices } } reason
    exact ⟨hPaths, hLog, hFin, hAb, hCl⟩
  · intro hn
    unfold StreamManager.handle_forced_drop
    rw [removePath_none_eq m.out slots.receiver reason true hn]
    rfl

/-- Manager owning one outbound path at slot 3, used to exercise the
forced-drop scenario. -/
def forcedDropDemo : StreamManager :=
  { initManager with out := { initManager.out with
      paths := [(3, OutboundPath.fresh ⟨1, 3⟩ 0)] } }

theorem handle_forced_drop_spec_witness :
    (forcedDropDemo.handle_forced_drop ⟨9, 3⟩ (Option.some "remote failure")).out.paths
        = mapErase forcedDropDemo.out.paths 3
    ∧ (forcedDropDemo.handle_forced_drop ⟨9, 3⟩
          (Option.some "remote failure")).finalizeCalls
        = [Option.some "remote failure"]
    ∧ initManager.handle_forced_drop ⟨9, 3⟩ (Option.some "remote failure")
        = initManager := by
  obtain ⟨h1, h2⟩ :=
    handle_forced_drop_spec forcedDropDemo ⟨9, 3⟩ (Option.some "remote failure")
  obtain ⟨ha, _, hc, _, _⟩ := h1 (by decide)
  refine ⟨ha, ?_, ?_⟩
  · rw [hc]
    rfl
  · exact (handle_forced_drop_spec initManager ⟨9, 3⟩
      (Option.some "remote failure")).2 (by decide)

/-- C6: for an existing outbound path at the receiver slot, `handle_ack_batch`
adds the message's new capacity to the path's open credit, updates its desired
batch size, sets its next ack id to the acknowledged id plus one, and triggers
`push()` (whose emission may convert credit into sent items); consequently,
after a successful open-ack followed by any sequence of batch-acks addressed
to that path, the path's next ack id equals the last acknowledged id plus one
and its credit plus emitted items equals the initial demand plus all new
capacity contributions.  For a slot with no path the call is a no-op. -/
theorem handle_ack_batch_spec (m : StreamManager) (slots : StreamSlots)
    (x : AckOpen) (b0 : AckBatch) (bs : List AckBatch) :
    ((m.handle_ack_open slots x).2 = true →
        ∃ p, mapLookup (runAckBatches (m.handle_ack_open slots x).1 slots.invert
                (b0 :: bs)).out.paths slots.sender
            = Option.some p
          ∧ p.open_credit + p.sent = x.initial_demand + sumCaps (b0 :: bs)
          ∧ (∀ bl, (b0 :: bs).getLast? = Option.some bl →
              p.next_ack_id = bl.acknowledged_id + 1
              ∧ p.desired_batch_size = bl.desired_batch_size))
    ∧ (∀ (b : AckBatch) (p : OutboundPath),
        mapLookup m.out.paths slots.receiver = Option.some p →
        ∃ p', mapLookup (m.handle_ack_batch slots b).out.paths slots.receiver
            = Option.some p'
          ∧ p'.open_credit + p'.sent = p.open_credit + p.sent + b.new_capacity
          ∧ p'.desired_batch_size = b.desired_batch_size
          ∧ p'.next_ack_id = b.acknowledged_id + 1
          ∧ (m.handle_ack_batch slots b).out.emitCalls = m.out.emitCalls + 1)
    ∧ (mapLookup m.out.paths slots.receiver = Option.none →
        ∀ b, m.handle_ack_batch slots b = m) := by
  refine ⟨?_, ?_, ?_⟩
  · intro hb
    obtain ⟨_, _, _, _, ⟨e, he, h4⟩, _⟩ := ack_open_true_aux m slots x hb
    have hrecv : (slots.invert).receiver = slots.sender := rfl
    obtain ⟨p', hp', hsum, hack, hdes⟩ :=
      runAckBatches_lookup slots.invert (b0 :: bs) _ _ (by rw [hrecv]; exact h4)
    rw [hrecv] at hp'
    refine ⟨p', hp', ?_, ?_⟩
    · have hred : p'.open_credit + p'.sent
          = (x.initial_demand - e) + e + sumCaps (b0 :: bs) := by
        simpa using hsum
      omega
    · intro bl hbl
      rw [hbl] at hack hdes
      exact ⟨by simpa using hack, by simpa using hdes⟩
  · intro b p hp
    obtain ⟨⟨e, he, h1⟩, h2⟩ := ack_batch_lookup m slots b p hp
    refine ⟨_, h1, ?_, rfl, rfl, h2⟩
    show (p.open_credit + b.new_capacity - e) + (p.sent + e)
        = p.open_credit + p.sent + b.new_capacity
    omega
  · intro hn b
    exact ack_batch_none_eq m slots b hn

/-- Manager that has sent one handshake on slot 7, used to exercise the
open-ack plus batch-ack scenario. -/
def ackBatchDemo : StreamManager :=
  initManager.send_handshake 1 7 Option.none [] 0

theorem handle_ack_batch_spec_witness :
    ∃ p, mapLookup (runAckBatches
            (ackBatchDemo.handle_ack_open ⟨7, 3⟩ ⟨0, 10, 2⟩).1
            (StreamSlots.invert ⟨7, 3⟩) [⟨5, 2, 1⟩]).out.paths 7
        = Option.some p
      ∧ p.open_credit + p.sent = 10 + sumCaps [⟨5, 2, 1⟩]
      ∧ p.next_ack_id = 2 := by
  obtain ⟨h1, _, _⟩ :=
    handle_ack_batch_spec ackBatchDemo ⟨7, 3⟩ ⟨0, 10, 2⟩ ⟨5, 2, 1⟩ []
  obtain ⟨p, hp, hsum, hlast⟩ := h1 (by decide)
  obtain ⟨hack, _⟩ := hlast ⟨5, 2, 1⟩ (by decide)
  exact ⟨p, hp, hsum, hack⟩

/-- C7: `stop()` closes the outbound scatterer, invokes `finalize` once with
no error, schedules inbound-path cleanup without a reason, and delivers the
result of `make_final_result` to exactly the ledger promises (so with an empty
ledger no delivery happens), clearing the ledger. -/
theorem stop_spec (m : StreamManager) :
    (m.stop).out.closeCalls = m.out.closeCalls + 1
    ∧ (m.stop).finalizeCalls = m.finalizeCalls ++ [Option.none]
    ∧ (m.stop).cleanupScheduled = m.cleanupScheduled ++ [Option.none]
    ∧ (m.stop).deliveries
        = m.deliveries ++ m.promises.map (fun p => (p, m.make_final_result))
    ∧ (m.stop).promises = [] := by
  obtain ⟨_, h2, h3, h4, h5, h6, _⟩ := stop_parts m
  exact ⟨h3, h4, h5, h2, h6⟩

/-- C8 (amended): deregistering a path present in the registry succeeds and
removes exactly one occurrence of that path — the swap-remove keeps every
other entry, yielding a permutation of erasing it; deregistering a path absent
from the registry fails the registry's assertions (modelled as no result)
instead of being a silent no-op. -/
theorem deregister_input_path_spec (l : List Nat) (p : Nat) :
    (p ∈ l → ∃ l', deregister_input_path l p = Option.some l'
        ∧ l'.Perm (l.erase p))
    ∧ (p ∉ l → deregister_input_path l p = Option.none) :=
  ⟨deregister_input_path_mem l p, deregister_input_path_not_mem l p⟩

/-- C8 counterexample: with registry [1], deregistering the absent path 2 is
not a no-op leaving the registry unchanged; the find assertion fails and no
updated registry is produced. -/
theorem deregister_input_path_claim_cex :
    deregister_input_path [1] 2 = Option.none
    ∧ deregister_input_path [1] 2 ≠ Option.some [1] := by
  decide

theorem deregister_input_path_spec_witness :
    (∃ l', deregister_input_path [4, 7, 9] 4 = Option.some l'
        ∧ l'.Perm (([4, 7, 9] : List Nat).erase 4))
    ∧ deregister_input_path [4, 7, 9] 5 = Option.none :=
  ⟨(deregister_input_path_spec [4, 7, 9] 4).1 (by decide),
   (deregister_input_path_spec [4, 7, 9] 5).2 (by decide)⟩

/-- C9: a graceful `stop()` leaves the in-flight promise map exactly
unchanged — every in-flight handshake promise present before is still present
afterward — and an in-flight promise that is not also recorded in the ledger
receives no delivery from `stop()`: only ledger promises get the final
result. -/
theorem stop_in_flight_frame (m : StreamManager) :
    (m.stop).inFlightPromises = m.inFlightPromises
    ∧ (∀ kv ∈ m.inFlightPromises, kv.2 ∉ m.promises →
        ((m.stop).deliveries.filter (fun d => decide (d.1 = kv.2)))
          = (m.deliveries.filter (fun d => decide (d.1 = kv.2)))) := by
  obtain ⟨h1, h2, _⟩ := stop_parts m
  refine ⟨h1, ?_⟩
  intro kv _ hnot
  rw [h2, List.filter_append,
    filter_map_pair_nil m.promises kv.2 Message.nullMsg hnot, List.append_nil]

/-- Manager with one in-flight promise and an empty ledger, used to exercise
the graceful-stop frame property. -/
def stopFrameDemo : StreamManager :=
  { initManager with inFlightPromises := [(7, ⟨0, Option.none, [], 0⟩)] }

theorem stop_in_flight_frame_witness :
    (stopFrameDemo.stop).inFlightPromises = stopFrameDemo.inFlightPromises
    ∧ ((stopFrameDemo.stop).deliveries.filter
          (fun d => decide (d.1 = (⟨0, Option.none, [], 0⟩ : Promise))))
        = (stopFrameDemo.deliveries.filter
          (fun d => decide (d.1 = (⟨0, Option.none, [], 0⟩ : Promise)))) := by
  obtain ⟨h1, h2⟩ := stop_in_flight_frame stopFrameDemo
  exact ⟨h1, h2 (7, ⟨0, Option.none, [], 0⟩) (by decide) (by decide)⟩

/-- C10: the in-flight promise map holds at most one promise per slot — its
strictly-sorted key invariant is preserved by the emplace in
`send_handshake` — and a `send_handshake` for a slot that already has an
in-flight entry leaves the map unchanged (the freshly built promise is not
recorded) while `pending_handshakes_` is still incremented (wrapping `size_t`)
and the open-stream handshake message is still enqueued. -/
theorem send_handshake_emplace_spec (m : StreamManager) (dest slot : Nat)
    (client : Option Nat) (fwdStack : List Nat) (mid : Nat) :
    (List.Pairwise (fun a b => a < b) (m.inFlightPromises.map Prod.fst) →
        List.Pairwise (fun a b => a < b)
          ((m.send_handshake dest slot client fwdStack mid).inFlightPromises.map
            Prod.fst))
    ∧ (List.Pairwise (fun a b => a < b) (m.inFlightPromises.map Prod.fst) →
        (mapLookup m.inFlightPromises slot).isSome = true →
        (m.send_handshake dest slot client fwdStack mid).inFlightPromises
          = m.inFlightPromises)
    ∧ (m.send_handshake dest slot client fwdStack mid).pendingHandshakes
        = (m.pendingHandshakes + 1) % SIZE_T_MOD
    ∧ (m.send_handshake dest slot client fwdStack mid).enqueued
        = m.enqueued ++ [⟨dest, client, mid, fwdStack, slot,
            m.make_handshake slot, m.selfCtrl, m.priority⟩] := by
  refine ⟨?_, ?_, rfl, rfl⟩
  · intro hs
    exact mapEmplace_pairwise m.inFlightPromises slot
      ⟨m.selfCtrl, client, fwdStack, mid⟩ hs
  · intro hs hsome
    show mapEmplace m.inFlightPromises slot ⟨m.selfCtrl, client, fwdStack, mid⟩
        = m.inFlightPromises
    exact mapEmplace_of_mem m.inFlightPromises slot _ hs hsome

/-- Manager with an in-flight promise already recorded for slot 7, used to
exercise a repeated handshake on the same slot. -/
def emplaceDemo : StreamManager :=
  initManager.send_handshake 1 7 Option.none [] 0

theorem send_handshake_emplace_spec_witness :
    (emplaceDemo.send_handshake 2 7 Option.none [] 5).inFlightPromises
      = emplaceDemo.inFlightPromises
    ∧ (emplaceDemo.send_handshake 2 7 Option.none [] 5).pendingHandshakes = 2 := by
  obtain ⟨_, h2, h3, _⟩ :=
    send_handshake_emplace_spec emplaceDemo 2 7 Option.none [] 5
  refine ⟨h2 (by decide) (by decide), ?_⟩
  rw [h3]
  decide
